import Mathlib

/-!
Verification of the annotation-app session workflow (`annotation_app.py`).

The file shallowly embeds the data model and the stateful handlers of the
Streamlit script: session initialization (the `"initialized"` block), the
progress/review-all gate, the review page's final-submit handler, and the
annotation page's widget hydration, Back handler and Save-and-continue
handler.  Streamlit session state is modelled as an explicit `SessionState`
record and every rerun-handler as a state-transition function; the wall
clock (`datetime.utcnow().isoformat()`) is abstracted as a `String`
parameter, and the on-disk annotation file as an optional list of written
chunks.
-/

/-- A JSON scalar as it can appear in an annotation record: the script only
ever stores strings and integers in the fields we model. -/
inductive Val where
  | s (v : String)
  | n (v : Int)
deriving Repr, DecidableEq

/-- A catalog entry from `data/samples.json`: `id`, `image`, `vlm_output`,
`anomaly_label` (a 0/1 flag, read with default 0 and used for truthiness). -/
structure SampleDescriptor where
  id : String
  image : String
  vlm_output : String
  anomaly_label : Nat
deriving Repr, DecidableEq

/-- One saved record, mirroring the dict built in the Save-and-continue
handler (and the shape of records loaded back from the annotator's file). -/
structure Annot where
  sample_id : String
  annotator_id : String
  anomaly_presence : Val
  type_correctness : Val
  localization_score : Val
  grounded_reasoning : Val
  timestamp : String
deriving Repr, DecidableEq

/-- `st.session_state.annotations_buffer`: a Python dict keyed by sample id,
modelled as an insertion-ordered association list with unique keys. -/
abbrev Buffer := List (String × Annot)

/-- Dict key-membership test. -/
def bufHasKey (b : Buffer) (k : String) : Bool :=
  b.any (fun p => decide (p.1 = k))

/-- Dict lookup (`buffer.get(k)`). -/
def bufGet (b : Buffer) (k : String) : Option Annot :=
  match b with
  | [] => none
  | p :: rest => if p.1 = k then some p.2 else bufGet rest k

/-- Dict store (`buffer[k] = v`): overwrites in place if the key exists,
appends otherwise — Python-dict insertion-order semantics. -/
def bufInsert (b : Buffer) (k : String) (v : Annot) : Buffer :=
  if bufHasKey b k then b.map (fun p => if p.1 = k then (k, v) else p)
  else b ++ [(k, v)]

/-- The dict comprehension `{a["sample_id"]: a for a in existing_annotations}`
(later duplicates of a key overwrite earlier ones). -/
def bufferOfList (l : List Annot) : Buffer :=
  l.foldl (fun b a => bufInsert b a.sample_id a) []

/-- The keys of the buffer, in insertion order. -/
def bufKeys (b : Buffer) : List String := b.map (fun p => p.1)

/-- The Streamlit session state after the `"initialized"` block has run. -/
structure SessionState where
  annotator_id : String
  sample_order : List SampleDescriptor
  total_samples : Nat
  current_idx : Nat
  annotations_buffer : Buffer
  review_mode : Bool
deriving Repr, DecidableEq

/-- The session-initialization block (source lines 101–116): the queue is the
catalog filtered to ids without an existing annotation record, then shuffled
(`random.shuffle` is abstracted as an arbitrary `shuffle` function, assumed a
permutation in the theorems); `total_samples` is the full catalog size;
`current_idx` starts at 0; the buffer is seeded from the existing records;
`review_mode` starts `False`. -/
def initSession (aid : String) (samples : List SampleDescriptor)
    (existing : List Annot)
    (shuffle : List SampleDescriptor → List SampleDescriptor) : SessionState :=
  let annotated_ids := existing.map (fun a => a.sample_id)
  let remaining := samples.filter (fun s => ! decide (s.id ∈ annotated_ids))
  { annotator_id := aid
    sample_order := shuffle remaining
    total_samples := samples.length
    current_idx := 0
    annotations_buffer := bufferOfList existing
    review_mode := false }

/-- A reachable default used only for `List.getD`; every access in the
handlers is guarded so the default is never read. -/
def defaultSample : SampleDescriptor :=
  { id := "", image := "", vlm_output := "", anomaly_label := 0 }

/-- `samples[idx]` for the clamped cursor `idx = min(current_idx, len-1)`
(source lines 174–177). -/
def currentSample (st : SessionState) : SampleDescriptor :=
  st.sample_order.getD (min st.current_idx (st.sample_order.length - 1))
    defaultSample

/-- The guard of the "Review all annotations" button (source line 128): shown
iff the buffer size equals the queue length and the session is not already
reviewing. -/
def reviewAllAvailable (st : SessionState) : Bool :=
  decide (st.annotations_buffer.length = st.sample_order.length)
    && ! st.review_mode

/-- One user interaction with the page, as accepted by the handlers. -/
inductive Op where
  | save (ap tc : String) (loc gr : Int) (now : String)
  | back
  | reviewAll
  | selectForEdit (i : Nat)
deriving Repr, DecidableEq

/-- One rerun of the script in which the given interaction fires.  `save`
models lines 238–253 (only reachable when not reviewing and the queue is
nonempty): the record is built from the widget values, with
`type_correctness` / `localization_score` forced to `"N/A"` when the current
sample's `anomaly_label` is falsy, stored under the sample's id, and the
cursor advances or the mode flips to reviewing.  `back` models lines 232–235,
`reviewAll` lines 128–131, `selectForEdit` lines 146–149. -/
def step (st : SessionState) (op : Op) : SessionState :=
  match op with
  | Op.save ap tc loc gr now =>
    if st.review_mode = true then st
    else if st.sample_order = [] then st
    else
      let idx := min st.current_idx (st.sample_order.length - 1)
      let sample := st.sample_order.getD idx defaultSample
      let ann : Annot :=
        { sample_id := sample.id
          annotator_id := st.annotator_id
          anomaly_presence := Val.s ap
          type_correctness :=
            if sample.anomaly_label ≠ 0 then Val.s tc else Val.s "N/A"
          localization_score :=
            if sample.anomaly_label ≠ 0 then Val.n loc else Val.s "N/A"
          grounded_reasoning := Val.n gr
          timestamp := now }
      let buf2 := bufInsert st.annotations_buffer sample.id ann
      if idx < st.sample_order.length - 1 then
        { st with current_idx := idx + 1, annotations_buffer := buf2 }
      else
        { st with current_idx := idx, annotations_buffer := buf2,
                  review_mode := true }
  | Op.back =>
    if st.review_mode = true then st
    else if st.sample_order = [] then st
    else
      let idx := min st.current_idx (st.sample_order.length - 1)
      if 0 < idx then { st with current_idx := idx - 1 }
      else { st with current_idx := idx }
  | Op.reviewAll =>
    if reviewAllAvailable st then { st with review_mode := true } else st
  | Op.selectForEdit i =>
    if st.review_mode = true ∧ i < st.sample_order.length then
      { st with current_idx := i, review_mode := false }
    else st

/-- A sequence of interactions within one session. -/
def runOps (st : SessionState) (ops : List Op) : SessionState :=
  ops.foldl step st

/-- What the annotation page shows (source lines 168–177): a terminal
"All samples annotated" success screen when the queue is empty, otherwise the
form for the clamped cursor's sample. -/
inductive AnnotationView where
  | allAnnotated
  | form (idx : Nat) (sample : SampleDescriptor)
deriving Repr, DecidableEq

/-- The annotation-mode dispatch on the queue. -/
def annotationView (st : SessionState) : AnnotationView :=
  match st.sample_order with
  | [] => AnnotationView.allAnnotated
  | _ :: _ =>
    let idx := min st.current_idx (st.sample_order.length - 1)
    AnnotationView.form idx (st.sample_order.getD idx defaultSample)

/-- Hydration of the `type_correctness` radio (source lines 204–213): when the
sample's `anomaly_label` is truthy, the stored value (default `"correct"` when
no prior record exists) is looked up in `["correct","partial","incorrect"]`
with `list.index`, which raises `ValueError` on any other value — modelled as
`none`.  When the label is falsy the widget is not built and the value is the
constant `"N/A"`. -/
def hydrate_type_correctness (anomaly : Nat) (stored : Option Val) :
    Option Val :=
  if anomaly ≠ 0 then
    match stored.getD (Val.s "correct") with
    | Val.s v =>
      if v = "correct" ∨ v = "partial" ∨ v = "incorrect" then some (Val.s v)
      else none
    | Val.n _ => none
  else some (Val.s "N/A")

/-- Hydration of the `localization_score` slider (source lines 215–222): when
the label is truthy, `st.slider(1, 5, value=stored-or-3)` raises unless the
value is an integer within `[1, 5]` — modelled as `none`; when the label is
falsy the value is the constant `"N/A"`. -/
def hydrate_localization_score (anomaly : Nat) (stored : Option Val) :
    Option Val :=
  if anomaly ≠ 0 then
    match stored.getD (Val.n 3) with
    | Val.n v => if 1 ≤ v ∧ v ≤ 5 then some (Val.n v) else none
    | Val.s _ => none
  else some (Val.s "N/A")

/-- Model of `st.radio(label, options, index=...)`: whatever the user picks,
the returned value is one of the listed options. -/
def st_radio (options : List String) (choice : Fin options.length) : String :=
  options.get choice

/-- Model of `st.slider(label, lo, hi, value=...)` with integer bounds: the
control only ever yields a value inside `[lo, hi]`. -/
def st_slider (lo hi choice : Int) : Int :=
  max lo (min choice hi)

/-- A printable rendering of one record, standing for its JSON serialization
inside `json.dump`. -/
def annotChunk (a : Annot) : String :=
  let pv : Val → String := fun v =>
    match v with
    | Val.s x => "\"" ++ x ++ "\""
    | Val.n x => toString x
  "\x7b" ++ a.sample_id ++ "," ++ a.annotator_id ++ ","
    ++ pv a.anomaly_presence ++ "," ++ pv a.type_correctness ++ ","
    ++ pv a.localization_score ++ "," ++ pv a.grounded_reasoning ++ ","
    ++ a.timestamp ++ "\x7d"

/-- The stream of chunks `json.dump` writes for the buffer's values. -/
def serializeChunks (b : Buffer) : List String :=
  b.map (fun p => annotChunk p.2)

/-- Model of `save_all_annotations` (source lines 38–42): `open(path, "w")`
truncates the file unconditionally and the chunks are then written in order.
`failAfter = none` is a fully successful write; `failAfter = some k` models an
I/O failure after `k` chunks, which leaves the file holding exactly those `k`
chunks — the `prior` contents are destroyed by the truncating open either
way.  The Bool reports success. -/
def save_all_annotations (prior : Option (List String))
    (chunks : List String) (failAfter : Option Nat) :
    Option (List String) × Bool :=
  match prior, failAfter with
  | _, none => (some chunks, true)
  | _, some k => (some (chunks.take k), false)

/-- Outcome of the Final-submit handler: on success the session state is
cleared (`Committed`); on an exception the rerun aborts with the session
state untouched, so the session is still reviewing with the same state. -/
inductive CommitOutcome where
  | committed
  | stillReviewing (st : SessionState)
deriving Repr, DecidableEq

/-- The Final-submit handler (source lines 153–160): serialize the buffer's
values, run the durable write, and only on success clear the session. -/
def finalSubmit (st : SessionState) (prior : Option (List String))
    (failAfter : Option Nat) : CommitOutcome × Option (List String) :=
  let chunks := serializeChunks st.annotations_buffer
  let res := save_all_annotations prior chunks failAfter
  if res.2 then (CommitOutcome.committed, res.1)
  else (CommitOutcome.stillReviewing st, res.1)

/-! ### Buffer lemmas -/

theorem bufHasKey_iff (b : Buffer) (k : String) :
    bufHasKey b k = true ↔ k ∈ bufKeys b := by
  unfold bufHasKey bufKeys
  simp [List.any_eq_true, List.mem_map]

theorem bufGet_none_of_not_hasKey (b : Buffer) (k : String)
    (h : bufHasKey b k = false) : bufGet b k = none := by
  induction b with
  | nil => rfl
  | cons p rest ih =>
    simp [bufHasKey, List.any_cons] at h
    simp [bufGet, h.1, ih (by simpa [bufHasKey] using h.2)]

theorem bufGet_map_replace (b : Buffer) (k : String) (v : Annot)
    (h : bufHasKey b k = true) :
    bufGet (b.map (fun p => if p.1 = k then (k, v) else p)) k = some v := by
  induction b with
  | nil => simp [bufHasKey] at h
  | cons p rest ih =>
    by_cases hp : p.1 = k
    · simp [bufGet, hp]
    · have h2 : bufHasKey rest k = true := by
        simp [bufHasKey, List.any_cons, hp] at h
        simpa [bufHasKey] using h
      simp [bufGet, hp, ih h2]

theorem bufGet_append_of_none (b1 b2 : Buffer) (k : String)
    (h : bufGet b1 k = none) : bufGet (b1 ++ b2) k = bufGet b2 k := by
  induction b1 with
  | nil => rfl
  | cons p rest ih =>
    by_cases hp : p.1 = k
    · simp [bufGet, hp] at h
    · simp [bufGet, hp] at h ⊢; exact ih h

theorem bufGet_insert_self (b : Buffer) (k : String) (v : Annot) :
    bufGet (bufInsert b k v) k = some v := by
  unfold bufInsert
  by_cases h : bufHasKey b k = true
  · rw [if_pos h]; exact bufGet_map_replace b k v h
  · rw [if_neg h]
    have hn : bufGet b k = none :=
      bufGet_none_of_not_hasKey b k (by simpa using h)
    rw [bufGet_append_of_none b _ k hn]
    simp [bufGet]

theorem bufKeys_map_replace (b : Buffer) (k : String) (v : Annot) :
    bufKeys (b.map (fun p => if p.1 = k then (k, v) else p)) = bufKeys b := by
  induction b with
  | nil => rfl
  | cons p rest ih =>
    by_cases hp : p.1 = k
    · simp [bufKeys, List.map_cons, hp] at ih ⊢; exact ih
    · simp [bufKeys, List.map_cons, hp] at ih ⊢; exact ih

theorem bufKeys_insert (b : Buffer) (k : String) (v : Annot) :
    bufKeys (bufInsert b k v) =
      if bufHasKey b k then bufKeys b else bufKeys b ++ [k] := by
  unfold bufInsert
  by_cases h : bufHasKey b k = true
  · rw [if_pos h, if_pos h, bufKeys_map_replace]
  · rw [if_neg h, if_neg h]
    simp [bufKeys]

theorem bufInsert_length (b : Buffer) (k : String) (v : Annot) :
    (bufInsert b k v).length =
      if bufHasKey b k then b.length else b.length + 1 := by
  unfold bufInsert
  by_cases h : bufHasKey b k = true
  · rw [if_pos h, if_pos h, List.length_map]
  · rw [if_neg h, if_neg h, List.length_append]; rfl

theorem bufInsert_length_ge (b : Buffer) (k : String) (v : Annot) :
    b.length ≤ (bufInsert b k v).length := by
  rw [bufInsert_length]
  by_cases h : bufHasKey b k = true <;> simp [h]

theorem bufKeys_length (b : Buffer) : (bufKeys b).length = b.length :=
  List.length_map _ _

theorem bufKeys_insert_nodup (b : Buffer) (k : String) (v : Annot)
    (h : (bufKeys b).Nodup) : (bufKeys (bufInsert b k v)).Nodup := by
  rw [bufKeys_insert]
  by_cases hk : bufHasKey b k = true
  · rw [if_pos hk]; exact h
  · rw [if_neg hk]
    have hnot : k ∉ bufKeys b := fun hm =>
      hk ((bufHasKey_iff b k).mpr hm)
    simp [List.nodup_append, h, hnot]

theorem mem_bufKeys_insert (b : Buffer) (k : String) (v : Annot) (x : String)
    (h : x ∈ bufKeys (bufInsert b k v)) : x ∈ bufKeys b ∨ x = k := by
  rw [bufKeys_insert] at h
  by_cases hk : bufHasKey b k = true
  · rw [if_pos hk] at h; exact Or.inl h
  · rw [if_neg hk] at h
    rcases List.mem_append.mp h with h2 | h2
    · exact Or.inl h2
    · exact Or.inr (by simpa using h2)

theorem bufGet_isSome_iff (b : Buffer) (k : String) :
    (bufGet b k).isSome = true ↔ k ∈ bufKeys b := by
  induction b with
  | nil => simp [bufGet, bufKeys]
  | cons p rest ih =>
    by_cases hp : p.1 = k
    · simp [bufGet, bufKeys, hp]
    · have hk : bufKeys (p :: rest) = p.1 :: bufKeys rest := rfl
      simp only [bufGet, if_neg hp, ih, hk]
      constructor
      · exact fun h => List.mem_cons_of_mem _ h
      · intro h
        rcases List.mem_cons.mp h with h2 | h2
        · exact absurd h2.symm hp
        · exact h2

theorem bufferOfList_foldl_nodup (l : List Annot) (b : Buffer)
    (hb : (bufKeys b).Nodup) :
    (bufKeys (l.foldl (fun b2 a => bufInsert b2 a.sample_id a) b)).Nodup := by
  induction l generalizing b with
  | nil => exact hb
  | cons a rest ih =>
    exact ih _ (bufKeys_insert_nodup b a.sample_id a hb)

theorem bufferOfList_foldl_sub (l : List Annot) (b : Buffer) (x : String)
    (h : x ∈ bufKeys (l.foldl (fun b2 a => bufInsert b2 a.sample_id a) b)) :
    x ∈ bufKeys b ∨ x ∈ l.map (fun a => a.sample_id) := by
  induction l generalizing b with
  | nil => exact Or.inl h
  | cons a rest ih =>
    rcases ih _ h with h2 | h2
    · rcases mem_bufKeys_insert b a.sample_id a x h2 with h3 | h3
      · exact Or.inl h3
      · exact Or.inr (by simp [h3])
    · rcases List.mem_map.mp h2 with ⟨b2, hb2, hb3⟩
      exact Or.inr (List.mem_map.mpr ⟨b2, List.mem_cons_of_mem a hb2, hb3⟩)

theorem bufferOfList_nodup (l : List Annot) :
    (bufKeys (bufferOfList l)).Nodup :=
  bufferOfList_foldl_nodup l [] (by simp [bufKeys])

theorem mem_bufferOfList (l : List Annot) (x : String)
    (h : x ∈ bufKeys (bufferOfList l)) :
    x ∈ l.map (fun a => a.sample_id) := by
  rcases bufferOfList_foldl_sub l [] x h with h2 | h2
  · simp [bufKeys] at h2
  · exact h2

theorem nodup_sub_length {α} [DecidableEq α] (l1 l2 : List α)
    (h1 : l1.Nodup) (hsub : ∀ x ∈ l1, x ∈ l2) : l1.length ≤ l2.length := by
  calc l1.length = l1.toFinset.card := (List.toFinset_card_of_nodup h1).symm
    _ ≤ l2.toFinset.card := by
        apply Finset.card_le_card
        rw [Finset.subset_iff]
        intro x hx
        exact List.mem_toFinset.mpr (hsub x (List.mem_toFinset.mp hx))
    _ ≤ l2.length := List.toFinset_card_le l2

/-! ### Step lemmas -/

theorem step_save_eq (st : SessionState) (ap tc : String) (loc gr : Int)
    (now : String) (hmode : st.review_mode = false)
    (hq : st.sample_order ≠ []) :
    step st (Op.save ap tc loc gr now) =
      (let idx := min st.current_idx (st.sample_order.length - 1)
       let sample := st.sample_order.getD idx defaultSample
       let ann : Annot :=
         { sample_id := sample.id
           annotator_id := st.annotator_id
           anomaly_presence := Val.s ap
           type_correctness :=
             if sample.anomaly_label ≠ 0 then Val.s tc else Val.s "N/A"
           localization_score :=
             if sample.anomaly_label ≠ 0 then Val.n loc else Val.s "N/A"
           grounded_reasoning := Val.n gr
           timestamp := now }
       let buf2 := bufInsert st.annotations_buffer sample.id ann
       if idx < st.sample_order.length - 1 then
         { st with current_idx := idx + 1, annotations_buffer := buf2 }
       else
         { st with current_idx := idx, annotations_buffer := buf2,
                   review_mode := true }) := by
  unfold step
  rw [hmode]
  simp only [Bool.false_eq_true, if_false, if_neg hq]

theorem step_sample_order (st : SessionState) (op : Op) :
    (step st op).sample_order = st.sample_order := by
  cases op <;> simp only [step] <;> (repeat' split) <;> rfl

theorem step_total_samples (st : SessionState) (op : Op) :
    (step st op).total_samples = st.total_samples := by
  cases op <;> simp only [step] <;> (repeat' split) <;> rfl

theorem step_buffer_cases (st : SessionState) (op : Op) :
    (step st op).annotations_buffer = st.annotations_buffer ∨
    ∃ k v, (step st op).annotations_buffer =
      bufInsert st.annotations_buffer k v := by
  cases op <;> simp only [step] <;> (repeat' split) <;>
    first
      | exact Or.inl rfl
      | exact Or.inr ⟨_, _, rfl⟩

theorem step_buffer_len_mono (st : SessionState) (op : Op) :
    st.annotations_buffer.length ≤ (step st op).annotations_buffer.length := by
  rcases step_buffer_cases st op with h | ⟨k, v, h⟩
  · rw [h]
  · rw [h]; exact bufInsert_length_ge _ k v

theorem runOps_buffer_len_mono (st : SessionState) (ops : List Op) :
    st.annotations_buffer.length ≤
      (runOps st ops).annotations_buffer.length := by
  induction ops generalizing st with
  | nil => exact Nat.le_refl _
  | cons op rest ih =>
    exact Nat.le_trans (step_buffer_len_mono st op) (ih (step st op))

theorem runOps_cons (st : SessionState) (op : Op) (ops : List Op) :
    runOps st (op :: ops) = runOps (step st op) ops := rfl

theorem runOps_append (st : SessionState) (ops1 ops2 : List Op) :
    runOps st (ops1 ++ ops2) = runOps (runOps st ops1) ops2 := by
  unfold runOps
  exact List.foldl_append step st ops1 ops2

theorem runOps_sample_order (st : SessionState) (ops : List Op) :
    (runOps st ops).sample_order = st.sample_order := by
  induction ops generalizing st with
  | nil => rfl
  | cons op rest ih =>
    rw [runOps_cons, ih (step st op), step_sample_order]

theorem runOps_total_samples (st : SessionState) (ops : List Op) :
    (runOps st ops).total_samples = st.total_samples := by
  induction ops generalizing st with
  | nil => rfl
  | cons op rest ih =>
    rw [runOps_cons, ih (step st op), step_total_samples]

/-! ### List helpers -/

theorem getD_mem_of_lt {α} (l : List α) (n : Nat) (d : α)
    (h : n < l.length) : l.getD n d ∈ l := by
  induction l generalizing n with
  | nil => exact absurd h (by simp)
  | cons a rest ih =>
    cases n with
    | zero => exact List.mem_cons_self a rest
    | succ m =>
      have h2 : m < rest.length := Nat.lt_of_succ_lt_succ (by simpa using h)
      exact List.mem_cons_of_mem a (ih m h2)

theorem length_filter_add_not {α} (l : List α) (p : α → Bool) :
    (l.filter p).length + (l.filter (fun a => ! p a)).length = l.length := by
  induction l with
  | nil => rfl
  | cons a rest ih =>
    by_cases hp : p a = true <;> simp [List.filter_cons, hp] <;> omega

theorem map_filter_comp {α β} (l : List α) (f : α → β) (p : β → Bool) :
    (l.filter (fun a => p (f a))).map f = (l.map f).filter p := by
  induction l with
  | nil => rfl
  | cons a rest ih =>
    by_cases hp : p (f a) = true <;>
      simp [List.filter_cons, List.map_cons, hp, ih]

theorem filter_mem_length {α} [DecidableEq α] (l l2 : List α)
    (hl : l.Nodup) (h2 : l2.Nodup) (hsub : ∀ x ∈ l2, x ∈ l) :
    (l.filter (fun x => decide (x ∈ l2))).length = l2.length := by
  have hn : (l.filter (fun x => decide (x ∈ l2))).Nodup := hl.filter _
  have hmem : ∀ x, x ∈ l.filter (fun x => decide (x ∈ l2)) ↔ x ∈ l2 := by
    intro x
    simp only [List.mem_filter, decide_eq_true_eq]
    exact ⟨fun h => h.2, fun h => ⟨hsub x h, h⟩⟩
  apply Nat.le_antisymm
  · exact nodup_sub_length _ _ hn (fun x hx => (hmem x).mp hx)
  · exact nodup_sub_length _ _ h2 (fun x hx => (hmem x).mpr hx)

/-! ### The session invariant: buffer keys are unique and drawn from a fixed
id universe, and every queued sample's id lies in that universe. -/

def KeysInv (allowed : List String) (st : SessionState) : Prop :=
  (bufKeys st.annotations_buffer).Nodup ∧
  (∀ k ∈ bufKeys st.annotations_buffer, k ∈ allowed) ∧
  (∀ s ∈ st.sample_order, s.id ∈ allowed)

theorem step_buffer_cases_key (st : SessionState) (op : Op) :
    (step st op).annotations_buffer = st.annotations_buffer ∨
    (st.sample_order ≠ [] ∧ ∃ v, (step st op).annotations_buffer =
      bufInsert st.annotations_buffer (currentSample st).id v) := by
  cases op <;> simp only [step] <;> (repeat' split) <;>
    first
      | exact Or.inl rfl
      | exact Or.inr ⟨by assumption, _, rfl⟩

theorem step_KeysInv (allowed : List String) (st : SessionState) (op : Op)
    (h : KeysInv allowed st) : KeysInv allowed (step st op) := by
  obtain ⟨h1, h2, h3⟩ := h
  have hso := step_sample_order st op
  rcases step_buffer_cases_key st op with hb | ⟨hq, v, hb⟩
  · exact ⟨by rw [hb]; exact h1, by rw [hb]; exact h2,
      by rw [hso]; exact h3⟩
  · refine ⟨by rw [hb]; exact bufKeys_insert_nodup _ _ _ h1, ?_, ?_⟩
    · intro k hk
      rw [hb] at hk
      rcases mem_bufKeys_insert _ _ _ _ hk with h4 | h4
      · exact h2 k h4
      · have hm : currentSample st ∈ st.sample_order := by
          unfold currentSample
          apply getD_mem_of_lt
          have hlen : 0 < st.sample_order.length := List.length_pos.mpr hq
          exact Nat.lt_of_le_of_lt (Nat.min_le_right _ _)
            (Nat.sub_lt hlen Nat.one_pos)
        rw [h4]
        exact h3 _ hm
    · intro s hs
      rw [hso] at hs
      exact h3 s hs

theorem runOps_KeysInv (allowed : List String) (st : SessionState)
    (ops : List Op) (h : KeysInv allowed st) :
    KeysInv allowed (runOps st ops) := by
  induction ops generalizing st with
  | nil => exact h
  | cons op rest ih => exact ih (step st op) (step_KeysInv allowed st op h)

theorem KeysInv_buffer_le (allowed : List String) (st : SessionState)
    (h : KeysInv allowed st) :
    st.annotations_buffer.length ≤ allowed.length := by
  obtain ⟨h1, h2, _⟩ := h
  rw [← bufKeys_length]
  exact nodup_sub_length _ _ h1 h2

theorem initSession_KeysInv (aid : String) (samples : List SampleDescriptor)
    (existing : List Annot)
    (shuffle : List SampleDescriptor → List SampleDescriptor)
    (hsh : ∀ l, (shuffle l).Perm l)
    (hfk : ∀ a ∈ existing, a.sample_id ∈ samples.map (fun s => s.id)) :
    KeysInv (samples.map (fun s => s.id))
      (initSession aid samples existing shuffle) := by
  refine ⟨bufferOfList_nodup existing, ?_, ?_⟩
  · intro k hk
    have h2 := mem_bufferOfList existing k hk
    rcases List.mem_map.mp h2 with ⟨a, ha, hae⟩
    rw [← hae]
    exact hfk a ha
  · intro s hs
    have h2 : s ∈ samples.filter
        (fun s => ! decide (s.id ∈ existing.map (fun a => a.sample_id))) :=
      ((hsh _).mem_iff).mp hs
    exact List.mem_map.mpr ⟨s, (List.mem_filter.mp h2).1, rfl⟩

/-! ### Concrete fixtures used by witnesses and counterexamples -/

def sampleA1 : SampleDescriptor :=
  { id := "s1", image := "img1", vlm_output := "out1", anomaly_label := 1 }

def sampleN2 : SampleDescriptor :=
  { id := "s2", image := "img2", vlm_output := "out2", anomaly_label := 0 }

def sampleA3 : SampleDescriptor :=
  { id := "s3", image := "img3", vlm_output := "out3", anomaly_label := 1 }

def annotS1 : Annot :=
  { sample_id := "s1", annotator_id := "A", anomaly_presence := Val.s "yes"
    type_correctness := Val.s "correct", localization_score := Val.n 3
    grounded_reasoning := Val.n 4, timestamp := "2024-01-01T00:00:00" }

def annotS2 : Annot :=
  { sample_id := "s2", annotator_id := "A", anomaly_presence := Val.s "no"
    type_correctness := Val.s "N/A", localization_score := Val.s "N/A"
    grounded_reasoning := Val.n 2, timestamp := "2024-01-02T00:00:00" }

/-! ### Claim C1 -/

/-- Claim C1: for every non-empty queue, saving the current sample's answer
in annotation mode writes the record, stamped with the clock value, into
`buffer[sample.id]` with overwrite semantics (the subsequent lookup returns
exactly the new record whatever the buffer held before), and then the cursor
advances by one when `cursor < len(queue) - 1`, else the mode becomes
reviewing. -/
theorem c1_save_writes_and_advances (st : SessionState) (ap tc : String)
    (loc gr : Int) (now : String)
    (hmode : st.review_mode = false) (hq : st.sample_order ≠ [])
    (hcur : st.current_idx < st.sample_order.length) :
    bufGet (step st (Op.save ap tc loc gr now)).annotations_buffer
        (currentSample st).id = some
      { sample_id := (currentSample st).id
        annotator_id := st.annotator_id
        anomaly_presence := Val.s ap
        type_correctness := if (currentSample st).anomaly_label ≠ 0
          then Val.s tc else Val.s "N/A"
        localization_score := if (currentSample st).anomaly_label ≠ 0
          then Val.n loc else Val.s "N/A"
        grounded_reasoning := Val.n gr
        timestamp := now } ∧
    (st.current_idx < st.sample_order.length - 1 →
      (step st (Op.save ap tc loc gr now)).current_idx = st.current_idx + 1 ∧
      (step st (Op.save ap tc loc gr now)).review_mode = false) ∧
    (¬ st.current_idx < st.sample_order.length - 1 →
      (step st (Op.save ap tc loc gr now)).review_mode = true) := by
  have hidx : min st.current_idx (st.sample_order.length - 1) =
      st.current_idx := Nat.min_eq_left (by omega)
  unfold currentSample
  rw [step_save_eq st ap tc loc gr now hmode hq]
  simp only [hidx]
  by_cases h : st.current_idx < st.sample_order.length - 1
  · simp only [if_pos h]
    exact ⟨bufGet_insert_self _ _ _, fun _ => ⟨trivial, hmode⟩,
      fun h2 => absurd h h2⟩
  · simp only [if_neg h]
    exact ⟨bufGet_insert_self _ _ _, fun h2 => absurd h2 h, fun _ => trivial⟩

/-- Witness for C1 at a concrete session: catalog `[s1, s2]`, no prior
annotations, cursor 0 on the anomalous sample `s1`. -/
theorem c1_witness :
    bufGet (step (initSession "A" [sampleA1, sampleN2] [] (fun l => l))
        (Op.save "yes" "partial" 4 5 "t1")).annotations_buffer
      (currentSample (initSession "A" [sampleA1, sampleN2] []
        (fun l => l))).id = some
      { sample_id := (currentSample (initSession "A" [sampleA1, sampleN2] []
          (fun l => l))).id
        annotator_id :=
          (initSession "A" [sampleA1, sampleN2] [] (fun l => l)).annotator_id
        anomaly_presence := Val.s "yes"
        type_correctness := if (currentSample (initSession "A"
          [sampleA1, sampleN2] [] (fun l => l))).anomaly_label ≠ 0
          then Val.s "partial" else Val.s "N/A"
        localization_score := if (currentSample (initSession "A"
          [sampleA1, sampleN2] [] (fun l => l))).anomaly_label ≠ 0
          then Val.n 4 else Val.s "N/A"
        grounded_reasoning := Val.n 5
        timestamp := "t1" } ∧
    ((initSession "A" [sampleA1, sampleN2] [] (fun l => l)).current_idx <
        (initSession "A" [sampleA1, sampleN2] []
          (fun l => l)).sample_order.length - 1 →
      (step (initSession "A" [sampleA1, sampleN2] [] (fun l => l))
          (Op.save "yes" "partial" 4 5 "t1")).current_idx =
        (initSession "A" [sampleA1, sampleN2] []
          (fun l => l)).current_idx + 1 ∧
      (step (initSession "A" [sampleA1, sampleN2] [] (fun l => l))
          (Op.save "yes" "partial" 4 5 "t1")).review_mode = false) ∧
    (¬ (initSession "A" [sampleA1, sampleN2] [] (fun l => l)).current_idx <
        (initSession "A" [sampleA1, sampleN2] []
          (fun l => l)).sample_order.length - 1 →
      (step (initSession "A" [sampleA1, sampleN2] [] (fun l => l))
          (Op.save "yes" "partial" 4 5 "t1")).review_mode = true) :=
  c1_save_writes_and_advances
    (initSession "A" [sampleA1, sampleN2] [] (fun l => l))
    "yes" "partial" 4 5 "t1" (by decide) (by decide) (by decide)

/-! ### Claim C2 -/

/-- Claim C2: for a current sample whose `anomaly_label` is 0 (falsy), the
record that save stores has `type_correctness = "N/A"` and
`localization_score = "N/A"`, whatever values the annotator supplied for
those widgets and whatever the buffer previously held for that sample. -/
theorem c2_no_anomaly_forces_na (st : SessionState) (ap tc : String)
    (loc gr : Int) (now : String)
    (hmode : st.review_mode = false) (hq : st.sample_order ≠ [])
    (hanom : (currentSample st).anomaly_label = 0) :
    bufGet (step st (Op.save ap tc loc gr now)).annotations_buffer
        (currentSample st).id = some
      { sample_id := (currentSample st).id
        annotator_id := st.annotator_id
        anomaly_presence := Val.s ap
        type_correctness := Val.s "N/A"
        localization_score := Val.s "N/A"
        grounded_reasoning := Val.n gr
        timestamp := now } := by
  unfold currentSample at hanom ⊢
  rw [step_save_eq st ap tc loc gr now hmode hq]
  simp only [hanom, ne_eq, not_true_eq_false, if_false, ite_false]
  by_cases h : min st.current_idx (st.sample_order.length - 1) <
      st.sample_order.length - 1
  · simp only [if_pos h]
    exact bufGet_insert_self _ _ _
  · simp only [if_neg h]
    exact bufGet_insert_self _ _ _

/-- Witness for C2: catalog `[s2, s1]` (cursor 0 is the anomaly-free `s2`),
the annotator supplies `"incorrect"` and 5 for the conditional fields and a
prior record for `s2` is in the buffer, yet `"N/A"` is stored for both. -/
theorem c2_witness :
    bufGet (step (initSession "A" [sampleN2, sampleA1] [] (fun l => l))
        (Op.save "no" "incorrect" 5 1 "t2")).annotations_buffer
      (currentSample (initSession "A" [sampleN2, sampleA1] []
        (fun l => l))).id = some
      { sample_id := (currentSample (initSession "A" [sampleN2, sampleA1]
          [] (fun l => l))).id
        annotator_id := (initSession "A" [sampleN2, sampleA1] []
          (fun l => l)).annotator_id
        anomaly_presence := Val.s "no"
        type_correctness := Val.s "N/A"
        localization_score := Val.s "N/A"
        grounded_reasoning := Val.n 1
        timestamp := "t2" } := by
  have h := c2_no_anomaly_forces_na
    (initSession "A" [sampleN2, sampleA1] [] (fun l => l))
    "no" "incorrect" 5 1 "t2" (by decide) (by decide) (by decide)
  exact h

/-! ### Claim C9 -/

/-- Claim C9: the Back handler is a no-op on the cursor when it is 0 and
otherwise decrements it by one; in either case it never mutates the buffer
(the queue and the mode are also untouched). -/
theorem c9_back_no_decrement_below_zero (st : SessionState)
    (hmode : st.review_mode = false) (hq : st.sample_order ≠ [])
    (hcur : st.current_idx < st.sample_order.length) :
    (step st Op.back).annotations_buffer = st.annotations_buffer ∧
    (st.current_idx = 0 → (step st Op.back).current_idx = 0) ∧
    (0 < st.current_idx →
      (step st Op.back).current_idx = st.current_idx - 1) ∧
    (step st Op.back).sample_order = st.sample_order ∧
    (step st Op.back).review_mode = st.review_mode := by
  have hidx : min st.current_idx (st.sample_order.length - 1) =
      st.current_idx := Nat.min_eq_left (by omega)
  simp only [step, hmode, Bool.false_eq_true, if_false, if_neg hq, hidx]
  by_cases h : 0 < st.current_idx
  · simp only [if_pos h]
    exact ⟨by trivial, fun h2 => absurd h (by omega), fun _ => by trivial,
      by trivial, by trivial⟩
  · simp only [if_neg h]
    exact ⟨by trivial, fun h2 => by simp [h2], fun h2 => absurd h2 h,
      by trivial, by trivial⟩

/-- Witness for C9 at cursor 0 of a two-element queue. -/
theorem c9_witness :
    (step (initSession "A" [sampleA1, sampleN2] [] (fun l => l))
        Op.back).annotations_buffer =
      (initSession "A" [sampleA1, sampleN2] []
        (fun l => l)).annotations_buffer ∧
    ((initSession "A" [sampleA1, sampleN2] [] (fun l => l)).current_idx = 0 →
      (step (initSession "A" [sampleA1, sampleN2] [] (fun l => l))
        Op.back).current_idx = 0) ∧
    (0 < (initSession "A" [sampleA1, sampleN2] []
        (fun l => l)).current_idx →
      (step (initSession "A" [sampleA1, sampleN2] [] (fun l => l))
          Op.back).current_idx =
        (initSession "A" [sampleA1, sampleN2] []
          (fun l => l)).current_idx - 1) ∧
    (step (initSession "A" [sampleA1, sampleN2] [] (fun l => l))
        Op.back).sample_order =
      (initSession "A" [sampleA1, sampleN2] [] (fun l => l)).sample_order ∧
    (step (initSession "A" [sampleA1, sampleN2] [] (fun l => l))
        Op.back).review_mode =
      (initSession "A" [sampleA1, sampleN2] [] (fun l => l)).review_mode :=
  c9_back_no_decrement_below_zero
    (initSession "A" [sampleA1, sampleN2] [] (fun l => l))
    (by decide) (by decide) (by decide)

/-! ### Claim C10 -/

/-- Claim C10: hydrating the form for a sample with truthy `anomaly_label` is
total only under the precondition that any buffered value is a
`type_correctness` among `correct/partial/incorrect` and an integer
`localization_score` in `[1, 5]`; a buffered `"N/A"` (or a missing-prior
default) behaves as follows: `"N/A"` makes hydration fail — it does not fall
back to the defaults — while an absent prior annotation hydrates to the
defaults. -/
theorem c10_hydration_partiality (anomaly : Nat) (tc : String) (loc : Int)
    (ha : anomaly ≠ 0) :
    (hydrate_type_correctness anomaly (some (Val.s "N/A")) = none ∧
     hydrate_localization_score anomaly (some (Val.s "N/A")) = none) ∧
    ((tc = "correct" ∨ tc = "partial" ∨ tc = "incorrect") →
      hydrate_type_correctness anomaly (some (Val.s tc)) =
        some (Val.s tc)) ∧
    ((1 ≤ loc ∧ loc ≤ 5) →
      hydrate_localization_score anomaly (some (Val.n loc)) =
        some (Val.n loc)) ∧
    hydrate_type_correctness anomaly none = some (Val.s "correct") ∧
    hydrate_localization_score anomaly none = some (Val.n 3) := by
  refine ⟨⟨?_, ?_⟩, ?_, ?_, ?_, ?_⟩
  · simp [hydrate_type_correctness, ha]
  · simp [hydrate_localization_score, ha]
  · intro h
    simp [hydrate_type_correctness, ha, h]
  · intro h
    simp [hydrate_localization_score, ha, h]
  · simp [hydrate_type_correctness, ha]
  · simp [hydrate_localization_score, ha]

/-- Witness for C10 with `anomaly_label = 1`, the stored value
`"partial"` and score 2. -/
theorem c10_witness :
    ((hydrate_type_correctness 1 (some (Val.s "N/A")) = none ∧
      hydrate_localization_score 1 (some (Val.s "N/A")) = none) ∧
     (("partial" = "correct" ∨ "partial" = "partial" ∨
        "partial" = "incorrect") →
       hydrate_type_correctness 1 (some (Val.s "partial")) =
         some (Val.s "partial")) ∧
     ((1 ≤ (2 : Int) ∧ (2 : Int) ≤ 5) →
       hydrate_localization_score 1 (some (Val.n 2)) = some (Val.n 2)) ∧
     hydrate_type_correctness 1 none = some (Val.s "correct") ∧
     hydrate_localization_score 1 none = some (Val.n 3)) :=
  c10_hydration_partiality 1 "partial" 2 (by decide)

/-! ### Claim C3 -/

/-- Claim C3: the built queue consists exactly (up to the build-time shuffle)
of the catalog samples whose id does not appear in the prior annotation set;
when ids are collision-free (unique catalog ids, unique prior ids, priors
referencing catalog ids) `|queue| + |A| = |C|`; and `total_samples` is the
catalog size `|C|`, not `|queue|`. -/
theorem c3_session_build_queue (aid : String)
    (samples : List SampleDescriptor) (existing : List Annot)
    (shuffle : List SampleDescriptor → List SampleDescriptor)
    (hsh : ∀ l, (shuffle l).Perm l)
    (hcat : (samples.map (fun s => s.id)).Nodup)
    (hann : (existing.map (fun a => a.sample_id)).Nodup)
    (hfk : ∀ a ∈ existing, a.sample_id ∈ samples.map (fun s => s.id)) :
    (initSession aid samples existing shuffle).sample_order.Perm
      (samples.filter
        (fun s => ! decide (s.id ∈ existing.map (fun a => a.sample_id)))) ∧
    (initSession aid samples existing shuffle).sample_order.length +
      existing.length = samples.length ∧
    (initSession aid samples existing shuffle).total_samples =
      samples.length := by
  have hperm : (initSession aid samples existing shuffle).sample_order.Perm
      (samples.filter
        (fun s => ! decide (s.id ∈ existing.map (fun a => a.sample_id)))) :=
    hsh _
  refine ⟨hperm, ?_, rfl⟩
  rw [hperm.length_eq]
  have hsplit : (samples.filter (fun s =>
        decide (s.id ∈ existing.map (fun a => a.sample_id)))).length +
      (samples.filter (fun s =>
        ! decide (s.id ∈ existing.map (fun a => a.sample_id)))).length =
      samples.length :=
    length_filter_add_not samples
      (fun s => decide (s.id ∈ existing.map (fun a => a.sample_id)))
  have hmapeq : (samples.filter (fun s =>
        decide (s.id ∈ existing.map (fun a => a.sample_id)))).map
        (fun s => s.id) =
      (samples.map (fun s => s.id)).filter (fun x =>
        decide (x ∈ existing.map (fun a => a.sample_id))) :=
    map_filter_comp samples (fun s => s.id)
      (fun x => decide (x ∈ existing.map (fun a => a.sample_id)))
  have hlen1 : (samples.filter (fun s =>
        decide (s.id ∈ existing.map (fun a => a.sample_id)))).length =
      ((samples.map (fun s => s.id)).filter (fun x =>
        decide (x ∈ existing.map (fun a => a.sample_id)))).length := by
    rw [← hmapeq, List.length_map]
  have hlen2 : ((samples.map (fun s => s.id)).filter (fun x =>
        decide (x ∈ existing.map (fun a => a.sample_id)))).length =
      (existing.map (fun a => a.sample_id)).length :=
    filter_mem_length _ _ hcat hann (fun x hx => by
      rcases List.mem_map.mp hx with ⟨a, ha, hae⟩
      rw [← hae]
      exact hfk a ha)
  rw [List.length_map] at hlen2
  omega

/-- Witness for C3: catalog `[s1, s2, s3]` with a prior record for `s1`;
the queue is `[s2, s3]`, `2 + 1 = 3`, and `total_samples = 3`. -/
theorem c3_witness :
    (initSession "A" [sampleA1, sampleN2, sampleA3] [annotS1]
      (fun l => l)).sample_order.Perm
      ([sampleA1, sampleN2, sampleA3].filter
        (fun s => ! decide (s.id ∈ [annotS1].map (fun a => a.sample_id)))) ∧
    (initSession "A" [sampleA1, sampleN2, sampleA3] [annotS1]
      (fun l => l)).sample_order.length + [annotS1].length =
      [sampleA1, sampleN2, sampleA3].length ∧
    (initSession "A" [sampleA1, sampleN2, sampleA3] [annotS1]
      (fun l => l)).total_samples =
      [sampleA1, sampleN2, sampleA3].length :=
  c3_session_build_queue "A" [sampleA1, sampleN2, sampleA3] [annotS1]
    (fun l => l) (fun l => List.Perm.refl l) (by decide) (by decide)
    (by decide)

/-! ### Claim C8 -/

/-- Claim C8: within a session, `completed = |buffer|` never decreases
across any sequence of operations, and — priors referencing catalog ids, as
the data model's foreign key demands — never exceeds `total_samples`. -/
theorem c8_progress_monotone_and_bounded (aid : String)
    (samples : List SampleDescriptor) (existing : List Annot)
    (shuffle : List SampleDescriptor → List SampleDescriptor)
    (ops more : List Op)
    (hsh : ∀ l, (shuffle l).Perm l)
    (hfk : ∀ a ∈ existing, a.sample_id ∈ samples.map (fun s => s.id)) :
    (runOps (initSession aid samples existing shuffle)
        ops).annotations_buffer.length ≤
      (runOps (initSession aid samples existing shuffle)
        (ops ++ more)).annotations_buffer.length ∧
    (runOps (initSession aid samples existing shuffle)
        ops).annotations_buffer.length ≤
      (runOps (initSession aid samples existing shuffle)
        ops).total_samples := by
  constructor
  · rw [runOps_append]
    exact runOps_buffer_len_mono _ more
  · have hinv := runOps_KeysInv _ _ ops
      (initSession_KeysInv aid samples existing shuffle hsh hfk)
    have hle := KeysInv_buffer_le _ _ hinv
    rw [List.length_map] at hle
    rw [runOps_total_samples]
    exact hle

/-- Witness for C8: catalog `[s1, s2]`, prior record for `s1`, one save then
a back navigation. -/
theorem c8_witness :
    (runOps (initSession "A" [sampleA1, sampleN2] [annotS1] (fun l => l))
        [Op.save "yes" "correct" 3 3 "t5"]).annotations_buffer.length ≤
      (runOps (initSession "A" [sampleA1, sampleN2] [annotS1] (fun l => l))
        ([Op.save "yes" "correct" 3 3 "t5"] ++
          [Op.back])).annotations_buffer.length ∧
    (runOps (initSession "A" [sampleA1, sampleN2] [annotS1] (fun l => l))
        [Op.save "yes" "correct" 3 3 "t5"]).annotations_buffer.length ≤
      (runOps (initSession "A" [sampleA1, sampleN2] [annotS1] (fun l => l))
        [Op.save "yes" "correct" 3 3 "t5"]).total_samples :=
  c8_progress_monotone_and_bounded "A" [sampleA1, sampleN2] [annotS1]
    (fun l => l) [Op.save "yes" "correct" 3 3 "t5"] [Op.back]
    (fun l => List.Perm.refl l) (by decide)

/-! ### Claim C7 -/

/-- Counterexample to C7 as stated: resuming with a prior record for `s1`
over catalog `[s1, s2, s3]` gives the queue `[s2, s3]`; after saving `s2`
the buffer holds two records (`s1`, `s2`), so the count gate
`len(buffer) == len(queue)` fires and the review-all button is available in
annotating mode even though queue item `s3` has no answer in the buffer. -/
theorem c7_counterexample :
    reviewAllAvailable (runOps (initSession "A"
        [sampleA1, sampleN2, sampleA3] [annotS1] (fun l => l))
        [Op.save "no" "correct" 3 3 "t4"]) = true ∧
    (runOps (initSession "A" [sampleA1, sampleN2, sampleA3] [annotS1]
        (fun l => l)) [Op.save "no" "correct" 3 3 "t4"]).review_mode =
      false ∧
    sampleA3 ∈ (runOps (initSession "A" [sampleA1, sampleN2, sampleA3]
        [annotS1] (fun l => l))
        [Op.save "no" "correct" 3 3 "t4"]).sample_order ∧
    bufGet (runOps (initSession "A" [sampleA1, sampleN2, sampleA3]
        [annotS1] (fun l => l))
        [Op.save "no" "correct" 3 3 "t4"]).annotations_buffer
      sampleA3.id = none := by decide

/-- A freshly built queue's mapped ids inherit the catalog's freedom from
duplicates, through the filter and the shuffle. -/
theorem initSession_queue_ids_nodup (aid : String)
    (samples : List SampleDescriptor) (existing : List Annot)
    (shuffle : List SampleDescriptor → List SampleDescriptor)
    (hsh : ∀ l, (shuffle l).Perm l)
    (hcat : (samples.map (fun s => s.id)).Nodup) :
    ((initSession aid samples existing shuffle).sample_order.map
      (fun s => s.id)).Nodup := by
  have hperm : ((initSession aid samples existing shuffle).sample_order.map
      (fun s => s.id)).Perm
      ((samples.filter (fun s => ! decide (s.id ∈ existing.map
        (fun a => a.sample_id)))).map (fun s => s.id)) :=
    (hsh _).map _
  have hmapeq : (samples.filter (fun s => ! decide (s.id ∈ existing.map
      (fun a => a.sample_id)))).map (fun s => s.id) =
      (samples.map (fun s => s.id)).filter (fun x => ! decide (x ∈
        existing.map (fun a => a.sample_id))) :=
    map_filter_comp samples (fun s => s.id)
      (fun x => ! decide (x ∈ existing.map (fun a => a.sample_id)))
  rw [hmapeq] at hperm
  exact hperm.nodup_iff.mpr (hcat.filter _)

/-- Claim C7 (amended): the review-all transition is gated on the count
equality `len(buffer) == len(queue)`, not on per-item coverage; for a
session built with no prior annotations and duplicate-free catalog ids the
two coincide, so in annotating mode the transition is available exactly once
every queue item has an answer in the buffer. -/
theorem c7_review_gate_count (aid : String)
    (samples : List SampleDescriptor)
    (shuffle : List SampleDescriptor → List SampleDescriptor) (ops : List Op)
    (hsh : ∀ l, (shuffle l).Perm l)
    (hcat : (samples.map (fun s => s.id)).Nodup)
    (hmode : (runOps (initSession aid samples [] shuffle) ops).review_mode
      = false) :
    reviewAllAvailable (runOps (initSession aid samples [] shuffle) ops)
        = true ↔
      ∀ s ∈ (runOps (initSession aid samples [] shuffle) ops).sample_order,
        (bufGet (runOps (initSession aid samples [] shuffle)
          ops).annotations_buffer s.id).isSome = true := by
  have hinv : KeysInv ((initSession aid samples [] shuffle).sample_order.map
      (fun s => s.id)) (runOps (initSession aid samples [] shuffle) ops) := by
    apply runOps_KeysInv
    refine ⟨bufferOfList_nodup [], ?_, ?_⟩
    · intro k hk
      have h2 := mem_bufferOfList [] k hk
      simp at h2
    · intro s hs
      exact List.mem_map.mpr ⟨s, hs, rfl⟩
  obtain ⟨hnd, hsubk, _⟩ := hinv
  have hq : (runOps (initSession aid samples [] shuffle) ops).sample_order =
      (initSession aid samples [] shuffle).sample_order :=
    runOps_sample_order _ _
  have hqnd : ((initSession aid samples [] shuffle).sample_order.map
      (fun s => s.id)).Nodup :=
    initSession_queue_ids_nodup aid samples [] shuffle hsh hcat
  simp only [reviewAllAvailable, hmode, Bool.not_false, Bool.and_true,
    decide_eq_true_eq]
  constructor
  · intro hlen s hs
    have hklen : (bufKeys (runOps (initSession aid samples [] shuffle)
        ops).annotations_buffer).length =
        ((initSession aid samples [] shuffle).sample_order.map
          (fun s => s.id)).length := by
      rw [bufKeys_length, List.length_map, hlen, hq]
    have hF : (bufKeys (runOps (initSession aid samples [] shuffle)
        ops).annotations_buffer).toFinset =
        ((initSession aid samples [] shuffle).sample_order.map
          (fun s => s.id)).toFinset := by
      apply Finset.eq_of_subset_of_card_le
      · rw [Finset.subset_iff]
        intro x hx
        exact List.mem_toFinset.mpr (hsubk x (List.mem_toFinset.mp hx))
      · rw [List.toFinset_card_of_nodup hnd,
          List.toFinset_card_of_nodup hqnd]
        exact Nat.le_of_eq hklen.symm
    have hsid : s.id ∈ (initSession aid samples [] shuffle).sample_order.map
        (fun s => s.id) := by
      rw [hq] at hs
      exact List.mem_map.mpr ⟨s, hs, rfl⟩
    have hmem : s.id ∈ bufKeys (runOps (initSession aid samples [] shuffle)
        ops).annotations_buffer := by
      have h2 : s.id ∈ (bufKeys (runOps (initSession aid samples [] shuffle)
          ops).annotations_buffer).toFinset := by
        rw [hF]
        exact List.mem_toFinset.mpr hsid
      exact List.mem_toFinset.mp h2
    exact (bufGet_isSome_iff _ _).mpr hmem
  · intro hall
    have hsub2 : ∀ x ∈ (initSession aid samples [] shuffle).sample_order.map
        (fun s => s.id),
        x ∈ bufKeys (runOps (initSession aid samples [] shuffle)
          ops).annotations_buffer := by
      intro x hx
      rcases List.mem_map.mp hx with ⟨s, hsmem, hsid⟩
      have hs2 : s ∈ (runOps (initSession aid samples [] shuffle)
          ops).sample_order := by
        rw [hq]
        exact hsmem
      have h3 := hall s hs2
      rw [← hsid]
      exact (bufGet_isSome_iff _ _).mp h3
    have h1 := nodup_sub_length _ _ hnd hsubk
    have h2 := nodup_sub_length _ _ hqnd hsub2
    rw [bufKeys_length] at h1 h2
    rw [List.length_map] at h1 h2
    rw [hq]
    omega

/-- Witness for the amended C7: fresh session over `[s1, s2]`, one save;
the buffer covers `s1` only, so neither side of the equivalence holds. -/
theorem c7_witness :
    reviewAllAvailable (runOps (initSession "A" [sampleA1, sampleN2] []
        (fun l => l)) [Op.save "yes" "correct" 3 3 "t6"]) = true ↔
      ∀ s ∈ (runOps (initSession "A" [sampleA1, sampleN2] [] (fun l => l))
          [Op.save "yes" "correct" 3 3 "t6"]).sample_order,
        (bufGet (runOps (initSession "A" [sampleA1, sampleN2] []
            (fun l => l))
          [Op.save "yes" "correct" 3 3 "t6"]).annotations_buffer
          s.id).isSome = true :=
  c7_review_gate_count "A" [sampleA1, sampleN2] (fun l => l)
    [Op.save "yes" "correct" 3 3 "t6"] (fun l => List.Perm.refl l)
    (by decide) (by decide)

/-! ### Claim C4 -/

/-- A concrete reviewing-mode session with two buffered records. -/
def stReviewC4 : SessionState :=
  { annotator_id := "A"
    sample_order := [sampleA1, sampleN2]
    total_samples := 2
    current_idx := 1
    annotations_buffer := [("s1", annotS1), ("s2", annotS2)]
    review_mode := true }

/-- Counterexample to C4 as stated: `save_all_annotations` opens the file
with mode `"w"`, truncating it before `json.dump` writes; a failure after
one of two chunks leaves the store holding a strict prefix of the new
serialization — neither the prior contents nor the full new set — so a
partial commit is observable, though the session does remain Reviewing. -/
theorem c4_counterexample :
    (finalSubmit stReviewC4 (some ["prior-chunk"]) (some 1)).2 ≠
      some ["prior-chunk"] ∧
    (finalSubmit stReviewC4 (some ["prior-chunk"]) (some 1)).2 ≠
      some (serializeChunks stReviewC4.annotations_buffer) ∧
    (finalSubmit stReviewC4 (some ["prior-chunk"]) (some 1)).1 =
      CommitOutcome.stillReviewing stReviewC4 := by decide

/-- Claim C4 (amended): when the durable write fails the session remains in
Reviewing with its state intact (commit can be retried) and on success the
store holds exactly the serialized buffer; but the write is truncate-then-
write, not an atomic replacement, so a failure after `k` chunks leaves the
store holding that `k`-chunk prefix of the new serialization rather than
its prior contents. -/
theorem c4_commit_failure_stays_reviewing (st : SessionState)
    (prior : Option (List String)) (k : Nat) :
    finalSubmit st prior (some k) =
      (CommitOutcome.stillReviewing st,
        some ((serializeChunks st.annotations_buffer).take k)) ∧
    finalSubmit st prior none =
      (CommitOutcome.committed,
        some (serializeChunks st.annotations_buffer)) :=
  ⟨rfl, rfl⟩

/-! ### Claim C5 -/

/-- Counterexample to C5 as stated: handed a payload outside every allowed
domain (`anomaly_presence = "banana"`, `grounded_reasoning = 99`, …), the
Save handler does not reject it — the record is stored verbatim in the
buffer and the session still advances (here to reviewing, as `s1` is the
last queue item). -/
theorem c5_counterexample :
    bufGet (step (initSession "A" [sampleA1] [] (fun l => l))
        (Op.save "banana" "bogus" 42 99 "t7")).annotations_buffer
      sampleA1.id = some
      { sample_id := "s1", annotator_id := "A"
        anomaly_presence := Val.s "banana"
        type_correctness := Val.s "bogus"
        localization_score := Val.n 42
        grounded_reasoning := Val.n 99
        timestamp := "t7" } ∧
    (step (initSession "A" [sampleA1] [] (fun l => l))
        (Op.save "banana" "bogus" 42 99 "t7")).review_mode = true ∧
    ¬ ("banana" = "yes" ∨ "banana" = "no" ∨ "banana" = "unsure") ∧
    ¬ ((1 : Int) ≤ 99 ∧ (99 : Int) ≤ 5) := by decide

/-- Claim C5 (amended): the save handler performs no validation — it stores
whatever payload it is handed, verbatim, and advances — but payloads outside
the allowed domains cannot arise through the UI: the radio widgets yield one
of their listed options and the sliders yield integers within `[1, 5]`. -/
theorem c5_no_validation_widgets_restrict (st : SessionState)
    (ap tc : String) (loc gr : Int) (now : String)
    (cap ctc : Fin 3) (cloc cgr : Int)
    (hmode : st.review_mode = false) (hq : st.sample_order ≠ []) :
    (st_radio ["yes", "no", "unsure"] cap = "yes" ∨
     st_radio ["yes", "no", "unsure"] cap = "no" ∨
     st_radio ["yes", "no", "unsure"] cap = "unsure") ∧
    (st_radio ["correct", "partial", "incorrect"] ctc = "correct" ∨
     st_radio ["correct", "partial", "incorrect"] ctc = "partial" ∨
     st_radio ["correct", "partial", "incorrect"] ctc = "incorrect") ∧
    (1 ≤ st_slider 1 5 cloc ∧ st_slider 1 5 cloc ≤ 5) ∧
    (1 ≤ st_slider 1 5 cgr ∧ st_slider 1 5 cgr ≤ 5) ∧
    bufGet (step st (Op.save ap tc loc gr now)).annotations_buffer
        (currentSample st).id = some
      { sample_id := (currentSample st).id
        annotator_id := st.annotator_id
        anomaly_presence := Val.s ap
        type_correctness := if (currentSample st).anomaly_label ≠ 0
          then Val.s tc else Val.s "N/A"
        localization_score := if (currentSample st).anomaly_label ≠ 0
          then Val.n loc else Val.s "N/A"
        grounded_reasoning := Val.n gr
        timestamp := now } := by
  refine ⟨?_, ?_, ?_, ?_, ?_⟩
  · fin_cases cap <;> simp [st_radio]
  · fin_cases ctc <;> simp [st_radio]
  · constructor
    · exact le_max_left 1 (min cloc 5)
    · exact max_le (by norm_num) (min_le_right cloc 5)
  · constructor
    · exact le_max_left 1 (min cgr 5)
    · exact max_le (by norm_num) (min_le_right cgr 5)
  · unfold currentSample
    rw [step_save_eq st ap tc loc gr now hmode hq]
    by_cases h : min st.current_idx (st.sample_order.length - 1) <
        st.sample_order.length - 1
    · simp only [if_pos h]
      exact bufGet_insert_self _ _ _
    · simp only [if_neg h]
      exact bufGet_insert_self _ _ _

/-- Witness for the amended C5 over a fresh two-sample session, with slider
choices that the control clamps into range. -/
theorem c5_witness :
    (st_radio ["yes", "no", "unsure"] (1 : Fin 3) = "yes" ∨
     st_radio ["yes", "no", "unsure"] (1 : Fin 3) = "no" ∨
     st_radio ["yes", "no", "unsure"] (1 : Fin 3) = "unsure") ∧
    (st_radio ["correct", "partial", "incorrect"] (2 : Fin 3) = "correct" ∨
     st_radio ["correct", "partial", "incorrect"] (2 : Fin 3) = "partial" ∨
     st_radio ["correct", "partial", "incorrect"] (2 : Fin 3) = "incorrect") ∧
    (1 ≤ st_slider 1 5 7 ∧ st_slider 1 5 7 ≤ 5) ∧
    (1 ≤ st_slider 1 5 0 ∧ st_slider 1 5 0 ≤ 5) ∧
    bufGet (step (initSession "A" [sampleA1, sampleN2] [] (fun l => l))
        (Op.save "no" "incorrect" 2 4 "t8")).annotations_buffer
      (currentSample (initSession "A" [sampleA1, sampleN2] []
        (fun l => l))).id = some
      { sample_id := (currentSample (initSession "A" [sampleA1, sampleN2]
          [] (fun l => l))).id
        annotator_id := (initSession "A" [sampleA1, sampleN2] []
          (fun l => l)).annotator_id
        anomaly_presence := Val.s "no"
        type_correctness := if (currentSample (initSession "A"
          [sampleA1, sampleN2] [] (fun l => l))).anomaly_label ≠ 0
          then Val.s "incorrect" else Val.s "N/A"
        localization_score := if (currentSample (initSession "A"
          [sampleA1, sampleN2] [] (fun l => l))).anomaly_label ≠ 0
          then Val.n 2 else Val.s "N/A"
        grounded_reasoning := Val.n 4
        timestamp := "t8" } :=
  c5_no_validation_widgets_restrict
    (initSession "A" [sampleA1, sampleN2] [] (fun l => l))
    "no" "incorrect" 2 4 "t8" (1 : Fin 3) (2 : Fin 3) 7 0 (by decide) (by decide)

/-! ### Claim C6 -/

/-- Counterexample to C6 as stated: a fully annotated catalog on resume
builds an empty queue, yet `review_mode` is initialized `False` — the
initial mode is Annotating, not Reviewing. -/
theorem c6_counterexample :
    (initSession "A" [sampleA1] [annotS1] (fun l => l)).sample_order = [] ∧
    (initSession "A" [sampleA1] [annotS1] (fun l => l)).review_mode =
      false := by decide

/-- Claim C6 (amended): at session build the mode is always Annotating
(`review_mode = False`), whether or not the queue is empty; a fully
completed catalog on resume is instead handled by the annotation page's
empty-queue guard, which shows the terminal "All samples annotated" screen
and halts — it does not go to review. -/
theorem c6_initial_mode_annotating (aid : String)
    (samples : List SampleDescriptor) (existing : List Annot)
    (shuffle : List SampleDescriptor → List SampleDescriptor) :
    (initSession aid samples existing shuffle).review_mode = false ∧
    ((initSession aid samples existing shuffle).sample_order = [] →
      annotationView (initSession aid samples existing shuffle) =
        AnnotationView.allAnnotated) := by
  refine ⟨rfl, ?_⟩
  intro h
  simp [annotationView, h]

/-- Witness for the amended C6 on a fully annotated single-sample catalog. -/
theorem c6_witness :
    (initSession "A" [sampleA1] [annotS1] (fun l => l)).review_mode =
      false ∧
    annotationView (initSession "A" [sampleA1] [annotS1] (fun l => l)) =
      AnnotationView.allAnnotated :=
  ⟨(c6_initial_mode_annotating "A" [sampleA1] [annotS1] (fun l => l)).1,
   (c6_initial_mode_annotating "A" [sampleA1] [annotS1] (fun l => l)).2
     (by decide)⟩
